import Mathlib

/-!
Verification of the paper-classification pipeline
(`paper_classifier/classifier.py` — local zero-shot pipeline, "Strategy B" —
and `paper/paper.py` — remote inference API, "Strategy A").

Page texts, titles and abstracts are modelled as `List Char`; Python `None`
becomes `Option.none`.  The two source files share an identical
`extract_pdf_metadata`, embedded once below.  The abstract-extraction regex

  `(Abstract|ABSTRACT)[\s:]*([\s\S]+?)(?=\n\n|\n1\s|Introduction|INTRODUCTION|$)`

with `re.IGNORECASE` is embedded operationally, mirroring the backtracking
engine: `re.search` tries start positions left to right; the alternation
group must match at the start position; `[\s:]*` is greedy and backtracks
from the longest run downwards; `([\s\S]+?)` is lazy (at least one character,
extended one character at a time) and stops at the first position where the
lookahead succeeds; `$` (no MULTILINE) matches at the end of the string and
also just before a final newline.
-/

namespace PaperClassifier

/-- ASCII whitespace as recognised by Python's `str.strip` and the regex
class `\s` (the source texts relevant here are ASCII). -/
def pyIsSpace (c : Char) : Bool :=
  c == ' ' || c == '\t' || c == '\n' || c == '\r' || c == '\x0b' || c == '\x0c'

/-- Characters consumed by the regex character class `[\s:]`. -/
def pySpaceColon (c : Char) : Bool := pyIsSpace c || c == ':'

/-- Python `str.strip()`: remove whitespace from both ends. -/
def pyStrip (l : List Char) : List Char :=
  ((l.dropWhile pyIsSpace).reverse.dropWhile pyIsSpace).reverse

/-- Case-insensitive literal match of `pat` starting at position `i`
(the effect of `re.IGNORECASE` on an ASCII literal). -/
def ciAt (cs : List Char) (i : Nat) (pat : List Char) : Bool :=
  decide (i + pat.length ≤ cs.length) &&
    ((cs.drop i).take pat.length).map Char.toLower == pat.map Char.toLower

/-- The lookahead `(?=\n\n|\n1\s|Introduction|INTRODUCTION|$)` tested at
position `p`.  `$` without MULTILINE succeeds at the end of the string and
just before a trailing final newline. -/
def boundaryAt (cs : List Char) (p : Nat) : Bool :=
  (cs.get? p == some '\n' && cs.get? (p+1) == some '\n')
  || (cs.get? p == some '\n' && cs.get? (p+1) == some '1' && (cs.get? (p+2)).any pyIsSpace)
  || ciAt cs p "Introduction".toList
  || ciAt cs p "INTRODUCTION".toList
  || p == cs.length
  || (p + 1 == cs.length && cs.get? p == some '\n')

/-- Structural worker for `findBoundaryFrom`; the fuel counts the candidate
positions left (`cs.length + 1 - k`), so the scan covers `k .. cs.length`. -/
def boundaryFromAux (cs : List Char) : Nat → Nat → Nat
  | 0, k => k
  | fuel + 1, k => if boundaryAt cs k then k else boundaryFromAux cs fuel (k+1)

/-- Lazy extension of `([\s\S]+?)`: the first position `≥ k` where the
lookahead succeeds (it always succeeds at `cs.length`). -/
def findBoundaryFrom (cs : List Char) (k : Nat) : Nat :=
  boundaryFromAux cs (cs.length + 1 - k) k

/-- Length of the greedy run matched by `[\s:]*` starting at `base`. -/
def spaceColonRun (cs : List Char) (base : Nat) : Nat :=
  ((cs.drop base).takeWhile pySpaceColon).length

/-- Backtracking of the greedy `[\s:]*`: starting from the maximal run
length `m`, give back one character at a time until the following lazy
group `([\s\S]+?)` can consume at least one character (i.e. until the
capture start is strictly before the end of the string). -/
def btStart (cs : List Char) (base : Nat) : Nat → Option Nat
  | 0 => if base < cs.length then some base else none
  | m + 1 =>
    if base + (m + 1) < cs.length then some (base + (m + 1))
    else btStart cs base m

/-- Attempt of the whole pattern at start position `i`; on success returns
the capture bounds `(j, k)` of group 2 (`cs[j..k)` half-open). -/
def matchAt (cs : List Char) (i : Nat) : Option (Nat × Nat) :=
  if ciAt cs i "Abstract".toList || ciAt cs i "ABSTRACT".toList then
    match btStart cs (i + 8) (spaceColonRun cs (i + 8)) with
    | some j => some (j, findBoundaryFrom cs (j + 1))
    | none => none
  else none

/-- Structural worker for `searchFrom`; the fuel counts the start positions
left to try (`cs.length + 1 - i`), so positions `i .. cs.length` are tried. -/
def searchAux (cs : List Char) : Nat → Nat → Option (Nat × Nat)
  | 0, _ => none
  | fuel + 1, i =>
    match matchAt cs i with
    | some r => some r
    | none => searchAux cs fuel (i+1)

/-- The scan of `re.search`: try start positions `i, i+1, ...` until the
pattern matches or the string is exhausted. -/
def searchFrom (cs : List Char) (i : Nat) : Option (Nat × Nat) :=
  searchAux cs (cs.length + 1 - i) i

/-- The regex applied to one page text: `abstract_match.group(2).strip()`
when the pattern matches, `none` otherwise. -/
def findAbstract (cs : List Char) : Option (List Char) :=
  (searchFrom cs 0).map (fun jk => pyStrip ((cs.drop jk.1).take (jk.2 - jk.1)))

/-- A PDF document as the extractor sees it: `openFails` models any
exception raised by `pdfplumber.open` or while reading; each page yields
`extract_text()`, which is a string or `None`. -/
structure PDFDoc where
  openFails : Bool
  pages : List (Option (List Char))
deriving DecidableEq

/-- The page loop of `extract_pdf_metadata`: `for page in pdf.pages[:3]`,
skipping falsy texts (`if not text: continue`), stopping at the first page
where the regex matches. -/
def scanPages : List (Option (List Char)) → Option (List Char)
  | [] => none
  | none :: rest => scanPages rest
  | some t :: rest =>
    if t == [] then scanPages rest
    else
      match findAbstract t with
      | some a => some a
      | none => scanPages rest

/-- Embedding of `extract_pdf_metadata` (identical in both source files).
A raised exception (modelled by `openFails`, and by `pdf.pages[0]` on a
document with no pages) is caught and converted to `(None, None)`.
The title is the first line of the first page's text, stripped, when that
text is truthy. -/
def extract_pdf_metadata (d : PDFDoc) : Option (List Char) × Option (List Char) :=
  if d.openFails then (none, none)
  else
    match d.pages with
    | [] => (none, none)
    | p0 :: _ =>
      let title : Option (List Char) :=
        match p0 with
        | none => none
        | some t => if t == [] then none else some (pyStrip (t.takeWhile (fun c => c ≠ '\n')))
      (title, scanPages (d.pages.take 3))

/-- The fixed candidate-category list (identical in both source files). -/
def CATEGORIES : List String :=
  ["Graph-Based Learning",
   "Optimization Algorithms",
   "Machine Learning Theory",
   "Reinforcement Learning & Bandits",
   "Applied AI in Healthcare & Web Systems"]

/-- Shared input construction of both strategies:
`combined_text = (title ++ ". " ++ abstract)[:2000]`. -/
def classifierInput (t a : List Char) : List Char :=
  (t ++ '.' :: ' ' :: a).take 2000

/-- Every label a row can carry: the five categories plus the sentinel
strings of both strategies. -/
def labelSet : List String :=
  CATEGORIES ++
    ["Missing Metadata", "Low Confidence", "Classification Error",
     "Authentication Error", "API Error", "Model Error"]

/-- Outcome of one call of the local zero-shot pipeline (Strategy B):
either a ranked result (`results["labels"]`, `results["scores"]`) or an
exception during inference.  Scores are modelled as rationals. -/
inductive PipeResult where
  | ok (labels : List String) (scores : List Rat)
  | err
deriving DecidableEq

namespace Classifier

/-- Embedding of `classifier.py classify_paper`.  The pipeline is a
parameter `pipe` applied to the combined input text.  Falsy title or
abstract short-circuits to "Missing Metadata"; an empty ranking raises
`IndexError`, caught as "Classification Error"; otherwise the top label is
returned when the top score strictly exceeds 0.3, else "Low Confidence". -/
def classify_paper (pipe : List Char → PipeResult)
    (title abstract : Option (List Char)) : String :=
  match title, abstract with
  | some t, some a =>
    if t == [] || a == [] then "Missing Metadata"
    else
      match pipe (classifierInput t a) with
      | .err => "Classification Error"
      | .ok labels scores =>
        match scores.head?, labels.head? with
        | some s, some l => if s > (3 : Rat)/10 then l else "Low Confidence"
        | _, _ => "Classification Error"
  | _, _ => "Missing Metadata"

end Classifier

namespace Paper

/-- Outcome of the remote call of Strategy A: `exc` models any exception
raised by `requests.post` or `response.json()`; otherwise the HTTP status,
whether the body carries an "error" field, and the optional "labels" and
"scores" entries of the body. -/
inductive ApiOutcome where
  | exc
  | resp (status : Nat) (hasErrorField : Bool)
      (labels : Option (List String)) (scores : Option (List Rat))
deriving DecidableEq

/-- Embedding of `paper.py classify_paper`.  A falsy `HF_API_KEY`
(environment variable unset or empty) short-circuits to
"Authentication Error" before the network call; the network is a parameter
`net` applied to the combined input text.  A missing "labels"/"scores" key
or an empty list raises, caught as "Classification Error"; on success the
top label is returned unconditionally. -/
def classify_paper (key : Option String) (net : List Char → ApiOutcome)
    (title abstract : List Char) : String :=
  if key == none || key == some "" then "Authentication Error"
  else
    match net (classifierInput title abstract) with
    | .exc => "Classification Error"
    | .resp status hasErr labels scores =>
      if status ≠ 200 then "API Error"
      else if hasErr then "Model Error"
      else
        match labels with
        | none => "Classification Error"
        | some ls =>
          match ls.head? with
          | none => "Classification Error"
          | some l =>
            match scores with
            | none => "Classification Error"
            | some ss =>
              match ss.head? with
              | none => "Classification Error"
              | some _ => l

end Paper

/-- One row of the output table: `[pdf_file, title, abstract, label]`. -/
structure Row where
  file : List Char
  title : Option (List Char)
  abstract : Option (List Char)
  label : String
deriving DecidableEq

/-- The per-document body of the orchestrator loop (identical in both
source files): extract metadata, classify when both fields are truthy,
otherwise assign "Missing Metadata", and build the row. -/
def rowFor (classify : List Char → List Char → String)
    (name : List Char) (doc : PDFDoc) : Row :=
  let m := extract_pdf_metadata doc
  let label :=
    match m.1, m.2 with
    | some t, some a => if t == [] || a == [] then "Missing Metadata" else classify t a
    | _, _ => "Missing Metadata"
  ⟨name, m.1, m.2, label⟩

/-- The orchestrator loop: `flag k` is the value of the global `interrupted`
flag when polled at the top of iteration `k` (it is checked before each
document; on `true` the loop breaks). -/
def runLoop (flag : Nat → Bool) (step : List Char → Row) :
    Nat → List (List Char) → List Row
  | _, [] => []
  | k, f :: rest => if flag k then [] else step f :: runLoop flag step (k+1) rest

/-- The enumeration `[f for f in os.listdir(PDF_FOLDER) if f.endswith(".pdf")]`. -/
def pdfFiles (listing : List (List Char)) : List (List Char) :=
  listing.filter (fun f => ".pdf".toList.isSuffixOf f)

/-- Shared shape of `process_pdfs` in both source files: enumerate PDF
names; on an empty enumeration report and return without writing the CSV
(`none`); otherwise run the loop and write the accumulated rows (`some`). -/
def process_pdfs_gen (flag : Nat → Bool) (listing : List (List Char))
    (step : List Char → Row) : Option (List Row) :=
  let files := pdfFiles listing
  if files == [] then none else some (runLoop flag step 0 files)

namespace Classifier

/-- The per-document step of `classifier.py process_pdfs`: `docOf` maps a
file name to the document behind it. -/
def step (pipe : List Char → PipeResult) (docOf : List Char → PDFDoc)
    (f : List Char) : Row :=
  rowFor (fun t a => classify_paper pipe (some t) (some a)) f (docOf f)

/-- Embedding of `classifier.py process_pdfs`. -/
def process_pdfs (flag : Nat → Bool) (listing : List (List Char))
    (docOf : List Char → PDFDoc) (pipe : List Char → PipeResult) :
    Option (List Row) :=
  process_pdfs_gen flag listing (step pipe docOf)

end Classifier

namespace Paper

/-- The per-document step of `paper.py process_pdfs`. -/
def step (key : Option String) (net : List Char → ApiOutcome)
    (docOf : List Char → PDFDoc) (f : List Char) : Row :=
  rowFor (fun t a => classify_paper key net t a) f (docOf f)

/-- Embedding of `paper.py process_pdfs`. -/
def process_pdfs (flag : Nat → Bool) (listing : List (List Char))
    (docOf : List Char → PDFDoc) (key : Option String)
    (net : List Char → ApiOutcome) : Option (List Row) :=
  process_pdfs_gen flag listing (step key net docOf)

end Paper

/-!
Spec-side definitions for claim C2.  `claimCapture` follows the claim's
wording as frozen (boundaries: a double line-break, a line beginning with
"1 ", or the word "Introduction"; the text between the marker and the
earliest boundary, trimmed).  `declCapture` is the amended description that
the code satisfies: at least one character is always captured, and the end
of the page text acts as a final boundary.
-/

/-- Modelled from the claim's words: the three capture boundaries it lists
(double line-break; a line beginning with "1 "; the word "Introduction",
case-insensitively, the whole pattern being case-insensitive). -/
def claimBoundary (cs : List Char) (p : Nat) : Bool :=
  (cs.get? p == some '\n' && cs.get? (p+1) == some '\n')
  || (cs.get? p == some '\n' && cs.get? (p+1) == some '1' && cs.get? (p+2) == some ' ')
  || ciAt cs p "Introduction".toList

/-- Modelled from the claim's words: the capture of one page — the text
after the first case-insensitive occurrence of the word "Abstract" (and the
whitespace/colon run following it), up to the earliest of the listed
boundaries (to the end of the text when none occurs), trimmed. -/
def claimCapture (cs : List Char) : Option (List Char) :=
  match (List.range cs.length).find? (fun i => ciAt cs i "Abstract".toList) with
  | none => none
  | some i =>
    let j := i + 8 + spaceColonRun cs (i + 8)
    let k := ((List.range' j (cs.length + 1 - j)).find? (claimBoundary cs)).getD cs.length
    some (pyStrip ((cs.drop j).take (k - j)))

/-- Declarative first match position of the regex: the least `i` where a
case-insensitive occurrence of "Abstract" starts and at least one character
remains after it (otherwise group 2 cannot capture). -/
def declFirstOcc (cs : List Char) : Option Nat :=
  (List.range cs.length).find?
    (fun i => ciAt cs i "Abstract".toList && decide (i + 8 < cs.length))

/-- Declarative capture start: after the maximal whitespace/colon run
following the word, stepping one character back when that run reaches the
end of the text (the capture is never empty). -/
def declCaptureStart (cs : List Char) (i : Nat) : Nat :=
  let base := i + 8 + spaceColonRun cs (i + 8)
  if base < cs.length then base else base - 1

/-- Declarative capture of one page, per the amended claim: from the
capture start up to the earliest boundary lying strictly after it, the end
of the text acting as a final boundary; trimmed. -/
def declCapture (cs : List Char) : Option (List Char) :=
  match declFirstOcc cs with
  | none => none
  | some i =>
    let j := declCaptureStart cs i
    let k := ((List.range' (j+1) (cs.length - j)).find? (boundaryAt cs)).getD cs.length
    some (pyStrip ((cs.drop j).take (k - j)))

/-- Declarative abstract of a document, per the amended claim: the capture
of the first matching page among the first three. -/
def declAbstract (pages : List (Option (List Char))) : Option (List Char) :=
  (pages.take 3).findSome? (fun o => o.bind declCapture)

end PaperClassifier
namespace PaperClassifier

/-- Concrete behaviour of the embedded regex on sample page texts,
matching a hand trace of the backtracking engine: capture to the end of
the page when no other boundary occurs; stop at a double line-break; an
empty capture when only whitespace follows the marker; no match when
nothing follows the word; case-insensitive marker; the greedy colon run
backtracking one character when it reaches the end of the text. -/
theorem findAbstract_samples :
    findAbstract "Graph NNs\nAbstract: We study.".toList = some "We study.".toList
    ∧ findAbstract "Abstract: We study GNNs.\n\n1 Intro".toList = some "We study GNNs.".toList
    ∧ findAbstract "Abstract: ".toList = some []
    ∧ findAbstract "Abstract".toList = none
    ∧ findAbstract "no marker here".toList = none
    ∧ findAbstract "the abstract: is here\nIntroduction follows".toList = some "is here".toList
    ∧ findAbstract "AbStRaCt is weird\n\nrest".toList = some "is weird".toList
    ∧ findAbstract "Abstract::".toList = some [':'] :=
  ⟨by decide, by decide, by decide, by decide, by decide, by decide, by decide, by decide⟩

/-- The declarative capture agrees with the operational one on the same
samples (an instance of the general theorem below). -/
theorem declCapture_samples :
    declCapture "Abstract: We study GNNs.\n\n1 Intro".toList = some "We study GNNs.".toList
    ∧ declCapture "Abstract: ".toList = some []
    ∧ declCapture "Abstract".toList = none
    ∧ declCapture "Abstract::".toList = some [':'] :=
  ⟨by decide, by decide, by decide, by decide⟩

end PaperClassifier

namespace PaperClassifier

/-- Under IGNORECASE the two branches of the alternation denote the same
character test. -/
theorem ciAt_ABSTRACT (cs : List Char) (i : Nat) :
    ciAt cs i "ABSTRACT".toList = ciAt cs i "Abstract".toList := by
  have h1 : "ABSTRACT".toList.map Char.toLower = "Abstract".toList.map Char.toLower := by
    decide
  have h2 : "ABSTRACT".toList.length = "Abstract".toList.length := by decide
  simp only [ciAt, h1, h2]

/-- The lookahead always succeeds at the end of the string. -/
theorem boundaryAt_length (cs : List Char) : boundaryAt cs cs.length = true := by
  simp [boundaryAt]

/-- A successful literal match needs the pattern to fit inside the string. -/
theorem ciAt_le_length {cs : List Char} {i : Nat} {pat : List Char}
    (h : ciAt cs i pat = true) : i + pat.length ≤ cs.length := by
  simp only [ciAt, Bool.and_eq_true, decide_eq_true_eq] at h
  exact h.1

/-- The greedy run never extends past the end of the string. -/
theorem spaceColonRun_le (cs : List Char) (base : Nat) :
    spaceColonRun cs base ≤ cs.length - base := by
  have := (@List.takeWhile_sublist Char (cs.drop base) pySpaceColon).length_le
  simpa [spaceColonRun, List.length_drop] using this

theorem boundaryFromAux_eq (cs : List Char) :
    ∀ fuel k, k + fuel = cs.length + 1 → k ≤ cs.length →
      boundaryFromAux cs fuel k =
        ((List.range' k fuel).find? (boundaryAt cs)).getD cs.length := by
  intro fuel
  induction fuel with
  | zero => intro k hk hle; omega
  | succ n ih =>
    intro k hk hle
    rw [List.range'_succ]
    by_cases hb : boundaryAt cs k
    · rw [List.find?_cons_of_pos _ hb]
      simp [boundaryFromAux, hb]
    · rw [List.find?_cons_of_neg _ hb]
      have hk' : k ≠ cs.length := fun h => hb (h ▸ boundaryAt_length cs)
      have := ih (k + 1) (by omega) (by omega)
      simpa [boundaryFromAux, hb] using this

/-- The lazy scan finds the first lookahead position at or after `k`,
described declaratively. -/
theorem findBoundaryFrom_eq (cs : List Char) (k : Nat) (h : k ≤ cs.length) :
    findBoundaryFrom cs k =
      ((List.range' k (cs.length + 1 - k)).find? (boundaryAt cs)).getD cs.length := by
  have := boundaryFromAux_eq cs (cs.length + 1 - k) k (by omega) h
  simpa [findBoundaryFrom] using this

theorem btStart_of_ge (cs : List Char) (base : Nat) (h : cs.length ≤ base) :
    ∀ m, btStart cs base m = none := by
  intro m
  induction m with
  | zero => simp [btStart]; omega
  | succ n ih => simp only [btStart]; rw [if_neg (by omega)]; exact ih

/-- The greedy-then-backtrack start of the capture, in closed form. -/
theorem btStart_of_lt (cs : List Char) (base : Nat) (h : base < cs.length) :
    ∀ m, btStart cs base m = some (min (base + m) (cs.length - 1)) := by
  intro m
  induction m with
  | zero => simp only [btStart]; rw [if_pos h]; congr 1; omega
  | succ n ih =>
    simp only [btStart]
    by_cases hlt : base + (n + 1) < cs.length
    · rw [if_pos hlt]; congr 1; omega
    · rw [if_neg hlt, ih]; congr 1; omega

end PaperClassifier

namespace PaperClassifier

/-- Closed form of one match attempt: it succeeds exactly when the literal
word matches with at least one character left after it, and then the
capture runs from the declarative start to the first lookahead position
strictly beyond it. -/
theorem matchAt_eq (cs : List Char) (i : Nat) :
    matchAt cs i =
      if ciAt cs i "Abstract".toList && decide (i + 8 < cs.length) then
        some (declCaptureStart cs i, findBoundaryFrom cs (declCaptureStart cs i + 1))
      else none := by
  cases hci : ciAt cs i "Abstract".toList with
  | false =>
    unfold matchAt
    rw [ciAt_ABSTRACT, Bool.or_self, hci]
    simp
  | true =>
    unfold matchAt
    rw [ciAt_ABSTRACT, Bool.or_self, hci]
    have hle : i + 8 ≤ cs.length := by
      have := ciAt_le_length hci
      simpa using this
    have hrun : spaceColonRun cs (i + 8) ≤ cs.length - (i + 8) :=
      spaceColonRun_le cs (i + 8)
    by_cases hlt : i + 8 < cs.length
    · have hstart : min (i + 8 + spaceColonRun cs (i + 8)) (cs.length - 1)
          = declCaptureStart cs i := by
        simp only [declCaptureStart]
        by_cases hb : i + 8 + spaceColonRun cs (i + 8) < cs.length
        · rw [if_pos hb]; omega
        · rw [if_neg hb]; omega
      rw [btStart_of_lt cs (i + 8) hlt, hstart]
      simp [hlt]
    · have hz : spaceColonRun cs (i + 8) = 0 := by omega
      rw [hz, btStart_of_ge cs (i + 8) (by omega)]
      simp [hlt]

/-- A match attempt succeeds exactly on the declarative condition. -/
theorem matchAt_isSome (cs : List Char) (i : Nat) :
    (matchAt cs i).isSome = (ciAt cs i "Abstract".toList && decide (i + 8 < cs.length)) := by
  rw [matchAt_eq]
  by_cases h : ciAt cs i "Abstract".toList && decide (i + 8 < cs.length)
  · rw [if_pos h, h]; rfl
  · rw [if_neg h]; simp only [Bool.not_eq_true] at h; rw [h]; rfl

theorem searchAux_eq (cs : List Char) :
    ∀ fuel i, searchAux cs fuel i =
      match (List.range' i fuel).find? (fun x => (matchAt cs x).isSome) with
      | some x => matchAt cs x
      | none => none := by
  intro fuel
  induction fuel with
  | zero => intro i; rfl
  | succ n ih =>
    intro i
    rw [List.range'_succ]
    cases hm : matchAt cs i with
    | some r =>
      rw [List.find?_cons_of_pos _ (by rw [hm]; rfl)]
      simp only [searchAux]
      rw [hm]
    | none =>
      rw [List.find?_cons_of_neg _ (by rw [hm]; simp)]
      simpa [searchAux, hm] using ih (i + 1)

/-- The search over one extra trailing element that the predicate rejects
changes nothing. -/
theorem find?_append_single {α : Type} (p : α → Bool) (x : α) (h : p x = false) :
    ∀ l : List α, (l ++ [x]).find? p = l.find? p := by
  intro l
  induction l with
  | nil => simp [List.find?, h]
  | cons a t ih =>
    by_cases ha : p a
    · simp [List.find?_cons_of_pos _ ha]
    · rw [List.cons_append, List.find?_cons_of_neg _ ha, List.find?_cons_of_neg _ ha, ih]

/-- The full `re.search` in declarative form: the leftmost viable start
position determines the match. -/
theorem searchFrom_zero_eq (cs : List Char) :
    searchFrom cs 0 =
      match declFirstOcc cs with
      | some i => matchAt cs i
      | none => none := by
  have h0 : searchFrom cs 0 = searchAux cs (cs.length + 1) 0 := by
    unfold searchFrom; norm_num
  rw [h0, searchAux_eq cs (cs.length + 1) 0]
  have hpred : ∀ x, (fun x => (matchAt cs x).isSome) x =
      (fun x => ciAt cs x "Abstract".toList && decide (x + 8 < cs.length)) x := by
    intro x; exact matchAt_isSome cs x
  have hconcat : List.range' 0 (cs.length + 1) = List.range' 0 cs.length ++ [cs.length] := by
    have := @List.range'_concat 1 0 cs.length
    simpa using this
  rw [funext hpred, hconcat,
    find?_append_single (fun x => ciAt cs x "Abstract".toList && decide (x + 8 < cs.length))
      cs.length (by simp), ← List.range_eq_range']
  rfl

end PaperClassifier

namespace PaperClassifier

/-- The operational regex application and the declarative (amended-claim)
capture agree on every page text. -/
theorem findAbstract_eq_declCapture (cs : List Char) :
    findAbstract cs = declCapture cs := by
  unfold findAbstract declCapture
  rw [searchFrom_zero_eq]
  cases hocc : declFirstOcc cs with
  | none => rfl
  | some i =>
    have hpred := List.find?_some hocc
    simp only [Bool.and_eq_true, decide_eq_true_eq] at hpred
    have hstart_lt : declCaptureStart cs i < cs.length := by
      simp only [declCaptureStart]
      have hrun := spaceColonRun_le cs (i + 8)
      by_cases hb : i + 8 + spaceColonRun cs (i + 8) < cs.length
      · rw [if_pos hb]; exact hb
      · rw [if_neg hb]; omega
    have hm := matchAt_eq cs i
    rw [if_pos (by rw [Bool.and_eq_true]; exact ⟨hpred.1, decide_eq_true hpred.2⟩)] at hm
    have hb := findBoundaryFrom_eq cs (declCaptureStart cs i + 1) (by omega)
    have harith : cs.length + 1 - (declCaptureStart cs i + 1)
        = cs.length - declCaptureStart cs i := by omega
    rw [harith] at hb
    simp [hm, hb]

/-- The page loop is the first-hit search over the pages it visits. -/
theorem scanPages_eq (l : List (Option (List Char))) :
    scanPages l = l.findSome? (fun o => o.bind findAbstract) := by
  induction l with
  | nil => rfl
  | cons p rest ih =>
    cases p with
    | none => simpa [scanPages, List.findSome?_cons] using ih
    | some t =>
      by_cases ht : t = []
      · subst ht
        have hnil : findAbstract [] = none := by decide
        simpa [scanPages, List.findSome?_cons, hnil] using ih
      · have hbeq : (t == []) = false := by simp [ht]
        rw [List.findSome?_cons]
        simp only [scanPages, hbeq, Bool.false_eq_true, if_false, Option.bind_some]
        cases hfa : findAbstract t with
        | some a => simp [hfa]
        | none => simpa [hfa] using ih

end PaperClassifier

namespace PaperClassifier

/-- When the interrupt flag is first observed `true` at iteration `i`, the
loop emits exactly the rows of the first `i` remaining files, in order. -/
theorem runLoop_eq_take (flag : Nat → Bool) (step : List Char → Row) (i : Nat)
    (hlt : ∀ k, k < i → flag k = false) (hi : flag i = true) :
    ∀ (files : List (List Char)) (k : Nat), k ≤ i →
      runLoop flag step k files = (files.take (i - k)).map step := by
  intro files
  induction files with
  | nil => intro k _; simp [runLoop]
  | cons f rest ih =>
    intro k hk
    by_cases hki : k = i
    · subst hki
      simp [runLoop, hi]
    · have hkf : flag k = false := hlt k (by omega)
      have h1 : i - k = (i - (k + 1)) + 1 := by omega
      simp only [runLoop, hkf, Bool.false_eq_true, if_false, h1, List.take_succ_cons,
        List.map_cons]
      rw [ih (k + 1) (by omega)]

/-- Every row the loop emits is the step applied to one of the files. -/
theorem runLoop_mem (flag : Nat → Bool) (step : List Char → Row) :
    ∀ (files : List (List Char)) (k : Nat) (r : Row),
      r ∈ runLoop flag step k files → ∃ f, f ∈ files ∧ r = step f := by
  intro files
  induction files with
  | nil => intro k r h; simp [runLoop] at h
  | cons f rest ih =>
    intro k r h
    simp only [runLoop] at h
    by_cases hf : flag k
    · rw [if_pos hf] at h; simp at h
    · rw [if_neg hf] at h
      rcases List.mem_cons.mp h with h1 | h2
      · exact ⟨f, List.mem_cons_self _ _, h1⟩
      · obtain ⟨g, hg, hr⟩ := ih (k + 1) r h2
        exact ⟨g, List.mem_cons_of_mem _ hg, hr⟩

/-- Strategy B never emits a label outside the closed label set, as long as
the pipeline ranks only supplied candidates. -/
theorem classifyB_label_mem (pipe : List Char → PipeResult)
    (hpipe : ∀ x ls ss, pipe x = PipeResult.ok ls ss → ∀ l ∈ ls, l ∈ CATEGORIES)
    (t a : Option (List Char)) :
    Classifier.classify_paper pipe t a ∈ labelSet := by
  unfold Classifier.classify_paper
  cases t with
  | none => exact (by decide : "Missing Metadata" ∈ labelSet)
  | some tv =>
    cases a with
    | none => exact (by decide : "Missing Metadata" ∈ labelSet)
    | some av =>
      dsimp only
      by_cases he : (tv == [] || av == []) = true
      · rw [if_pos he]
        exact (by decide : "Missing Metadata" ∈ labelSet)
      · rw [if_neg he]
        cases hp : pipe (classifierInput tv av) with
        | err => exact (by decide : "Classification Error" ∈ labelSet)
        | ok ls ss =>
          dsimp only
          cases hss : ss.head? with
          | none => exact (by decide : "Classification Error" ∈ labelSet)
          | some s =>
            cases hls : ls.head? with
            | none => exact (by decide : "Classification Error" ∈ labelSet)
            | some l =>
              dsimp only
              by_cases hs : s > (3 : Rat)/10
              · rw [if_pos hs]
                have hlmem : l ∈ ls := List.mem_of_mem_head? (by rw [hls]; rfl)
                exact List.mem_append_left _ (hpipe _ ls ss hp l hlmem)
              · rw [if_neg hs]
                exact (by decide : "Low Confidence" ∈ labelSet)

/-- Strategy A never emits a label outside the closed label set, as long as
the service ranks only supplied candidates. -/
theorem classifyA_label_mem (key : Option String) (net : List Char → Paper.ApiOutcome)
    (hnet : ∀ x st he ls ss, net x = Paper.ApiOutcome.resp st he (some ls) ss →
      ∀ l ∈ ls, l ∈ CATEGORIES)
    (t a : List Char) :
    Paper.classify_paper key net t a ∈ labelSet := by
  unfold Paper.classify_paper
  by_cases hk : (key == none || key == some "") = true
  · rw [if_pos hk]
    exact (by decide : "Authentication Error" ∈ labelSet)
  · rw [if_neg hk]
    cases hr : net (classifierInput t a) with
    | exc => exact (by decide : "Classification Error" ∈ labelSet)
    | resp st herr labels scores =>
      dsimp only
      by_cases hst : st ≠ 200
      · rw [if_pos hst]
        exact (by decide : "API Error" ∈ labelSet)
      · rw [if_neg hst]
        by_cases herrb : herr = true
        · rw [if_pos herrb]
          exact (by decide : "Model Error" ∈ labelSet)
        · rw [if_neg herrb]
          cases labels with
          | none => exact (by decide : "Classification Error" ∈ labelSet)
          | some ls =>
            dsimp only
            cases hls : ls.head? with
            | none => exact (by decide : "Classification Error" ∈ labelSet)
            | some l =>
              dsimp only
              have hlmem : l ∈ ls := List.mem_of_mem_head? (by rw [hls]; rfl)
              have hcat : l ∈ labelSet :=
                List.mem_append_left _ (hnet _ st herr ls scores hr l hlmem)
              cases scores with
              | none => exact (by decide : "Classification Error" ∈ labelSet)
              | some ss =>
                dsimp only
                cases hsc : ss.head? with
                | none => exact (by decide : "Classification Error" ∈ labelSet)
                | some s => exact hcat

/-- The label assigned by the per-document step is "Missing Metadata"
whenever either metadata field is falsy, independently of the classifier. -/
theorem rowFor_missing (classify : List Char → List Char → String)
    (name : List Char) (doc : PDFDoc)
    (h : (extract_pdf_metadata doc).1 = none ∨ (extract_pdf_metadata doc).2 = none
      ∨ (extract_pdf_metadata doc).1 = some [] ∨ (extract_pdf_metadata doc).2 = some []) :
    (rowFor classify name doc).label = "Missing Metadata" := by
  show (match (extract_pdf_metadata doc).1, (extract_pdf_metadata doc).2 with
    | some t, some a => if t == [] || a == [] then "Missing Metadata" else classify t a
    | _, _ => "Missing Metadata") = "Missing Metadata"
  rcases hm : extract_pdf_metadata doc with ⟨t, a⟩
  rw [hm] at h
  dsimp only at h ⊢
  rcases h with h | h | h | h
  · subst h; rfl
  · subst h; cases t <;> rfl
  · subst h
    cases a with
    | none => rfl
    | some av => rfl
  · subst h
    cases t with
    | none => rfl
    | some tv =>
      dsimp only
      rw [if_pos (by rw [Bool.or_eq_true]; exact Or.inr rfl)]

end PaperClassifier

namespace PaperClassifier

/-- With falsy metadata, the classifier parameter is irrelevant: the whole
row is the same for any two classifiers (the classifier is not invoked). -/
theorem rowFor_indep (classify classify' : List Char → List Char → String)
    (name : List Char) (doc : PDFDoc)
    (h : (extract_pdf_metadata doc).1 = none ∨ (extract_pdf_metadata doc).2 = none
      ∨ (extract_pdf_metadata doc).1 = some [] ∨ (extract_pdf_metadata doc).2 = some []) :
    rowFor classify name doc = rowFor classify' name doc := by
  have h1 := rowFor_missing classify name doc h
  have h2 := rowFor_missing classify' name doc h
  show (⟨name, (extract_pdf_metadata doc).1, (extract_pdf_metadata doc).2,
      (rowFor classify name doc).label⟩ : Row)
    = ⟨name, (extract_pdf_metadata doc).1, (extract_pdf_metadata doc).2,
      (rowFor classify' name doc).label⟩
  rw [h1, h2]

/-- A per-document step only ever emits a label from the closed set, as
long as the classifier does. -/
theorem rowFor_label_mem (classify : List Char → List Char → String)
    (hc : ∀ t a, classify t a ∈ labelSet) (name : List Char) (doc : PDFDoc) :
    (rowFor classify name doc).label ∈ labelSet := by
  show (match (extract_pdf_metadata doc).1, (extract_pdf_metadata doc).2 with
    | some t, some a => if t == [] || a == [] then "Missing Metadata" else classify t a
    | _, _ => "Missing Metadata") ∈ labelSet
  rcases extract_pdf_metadata doc with ⟨t, a⟩
  dsimp only
  cases t with
  | none => exact (by decide : "Missing Metadata" ∈ labelSet)
  | some tv =>
    cases a with
    | none => exact (by decide : "Missing Metadata" ∈ labelSet)
    | some av =>
      dsimp only
      by_cases he : (tv == [] || av == []) = true
      · rw [if_pos he]
        exact (by decide : "Missing Metadata" ∈ labelSet)
      · rw [if_neg he]
        exact hc tv av

/-- The run writes no table exactly when the PDF enumeration is empty. -/
theorem process_pdfs_gen_none_iff (flag : Nat → Bool) (listing : List (List Char))
    (step : List Char → Row) :
    process_pdfs_gen flag listing step = none ↔ pdfFiles listing = [] := by
  unfold process_pdfs_gen
  dsimp only
  by_cases h : pdfFiles listing = []
  · simp [h]
  · have hb : (pdfFiles listing == []) = false := by simp [h]
    simp [hb, h]

end PaperClassifier

namespace PaperClassifier

/-- C2 (counterexample): on the one-page document whose text is
"Abstract\nIntroduction\nWe begin", the claim's capture rule (text up to
the earliest listed boundary, trimmed) yields the empty string, because the
word "Introduction" starts exactly where the capture region starts; the
code instead captures "Introduction\nWe begin", because the lazy group
consumes at least one character before the lookahead is ever tested. -/
theorem claim_C2_counterexample :
    (extract_pdf_metadata ⟨false, [some "Abstract\nIntroduction\nWe begin".toList]⟩).2
        = some "Introduction\nWe begin".toList
    ∧ claimCapture "Abstract\nIntroduction\nWe begin".toList = some []
    ∧ some "Introduction\nWe begin".toList ≠ some ([] : List Char) :=
  ⟨by decide, by decide, by decide⟩

/-- C2 (amended): for every readable document, the extracted abstract is
the declarative capture of the first matching page among the first three
(`declAbstract`): the first page containing a case-insensitive occurrence
of "Abstract" followed by at least one further character contributes the
text after the whitespace/colon run following the word (stepping one
character back when that run reaches the end of the page), always at least
one character, up to the earliest boundary strictly beyond the capture
start — a double line-break, a newline followed by "1" and a whitespace
character, a case-insensitive "Introduction", or the end of the page text —
trimmed; if no page among the first three matches, the abstract is absent. -/
theorem claim_C2 (pages : List (Option (List Char))) :
    (extract_pdf_metadata ⟨false, pages⟩).2 = declAbstract pages := by
  cases pages with
  | nil => rfl
  | cons p rest =>
    show scanPages ((p :: rest).take 3) = declAbstract (p :: rest)
    rw [scanPages_eq]
    unfold declAbstract
    have hfun : (fun o : Option (List Char) => o.bind findAbstract)
        = (fun o : Option (List Char) => o.bind declCapture) := by
      funext o
      cases o with
      | none => rfl
      | some t => exact findAbstract_eq_declCapture t
    rw [hfun]

/-- C1: Strategy B returns the top-ranked label exactly when the top score
strictly exceeds 0.3, and otherwise returns "Low Confidence"; in
particular a top score of exactly 0.30 yields "Low Confidence" and a top
score of 0.31 yields the top-ranked label. -/
theorem claim_C1 (pipe : List Char → PipeResult) (t a : List Char) (l : String)
    (ls : List String) (s : Rat) (ss : List Rat)
    (ht : t ≠ []) (ha : a ≠ [])
    (hp : pipe (classifierInput t a) = PipeResult.ok (l :: ls) (s :: ss)) :
    (Classifier.classify_paper pipe (some t) (some a)
        = if s > (3 : Rat)/10 then l else "Low Confidence")
    ∧ (l ∈ CATEGORIES →
        (Classifier.classify_paper pipe (some t) (some a) = l ↔ s > (3 : Rat)/10))
    ∧ (s = (3 : Rat)/10 →
        Classifier.classify_paper pipe (some t) (some a) = "Low Confidence")
    ∧ (s = (31 : Rat)/100 →
        Classifier.classify_paper pipe (some t) (some a) = l) := by
  have hbt : (t == []) = false := by simp [ht]
  have hba : (a == []) = false := by simp [ha]
  have hmain : Classifier.classify_paper pipe (some t) (some a)
      = if s > (3 : Rat)/10 then l else "Low Confidence" := by
    unfold Classifier.classify_paper
    dsimp only
    rw [hbt, hba, hp]
    rfl
  refine ⟨hmain, ?_, ?_, ?_⟩
  · intro hcat
    constructor
    · intro he
      by_contra hns
      rw [hmain, if_neg hns] at he
      have hne : l ≠ "Low Confidence" := by
        intro hl
        subst hl
        revert hcat
        decide
      exact hne he.symm
    · intro hs
      rw [hmain, if_pos hs]
  · intro h3
    rw [hmain, if_neg (by rw [h3]; exact lt_irrefl _)]
  · intro h31
    rw [hmain, if_pos (by rw [h31]; norm_num)]

/-- C1 (witness): a concrete pipeline scoring 0.31 on the top candidate
makes Strategy B return that candidate. -/
theorem claim_C1_witness :
    Classifier.classify_paper
      (fun _ => PipeResult.ok ["Graph-Based Learning"] [(31 : Rat)/100])
      (some ['x']) (some ['y']) = "Graph-Based Learning" :=
  (claim_C1 (fun _ => PipeResult.ok ["Graph-Based Learning"] [(31 : Rat)/100])
    ['x'] ['y'] "Graph-Based Learning" [] ((31 : Rat)/100) []
    (by decide) (by decide) rfl).2.2.2 rfl

/-- C3: both strategies build the classifier input by concatenating title,
". " and abstract truncated to 2000 characters: the input has length at
most 2000, extends to the full concatenation, and each strategy's result
depends on its classifier only through its value at that input. -/
theorem claim_C3 (t a : List Char) :
    (classifierInput t a).length ≤ 2000
    ∧ (∃ r, classifierInput t a ++ r = t ++ '.' :: ' ' :: a)
    ∧ (∀ pipe pipe' : List Char → PipeResult,
        pipe (classifierInput t a) = pipe' (classifierInput t a) →
        Classifier.classify_paper pipe (some t) (some a)
          = Classifier.classify_paper pipe' (some t) (some a))
    ∧ (∀ (key : Option String) (net net' : List Char → Paper.ApiOutcome),
        net (classifierInput t a) = net' (classifierInput t a) →
        Paper.classify_paper key net t a = Paper.classify_paper key net' t a) := by
  refine ⟨?_, ⟨(t ++ '.' :: ' ' :: a).drop 2000, List.take_append_drop _ _⟩, ?_, ?_⟩
  · unfold classifierInput
    rw [List.length_take]
    exact min_le_left _ _
  · intro pipe pipe' h
    unfold Classifier.classify_paper
    dsimp only
    rw [h]
  · intro key net net' h
    unfold Paper.classify_paper
    rw [h]

/-- C3 (witness): the shared-input properties at a concrete title and
abstract, and the invocation property at concrete classifiers. -/
theorem claim_C3_witness :
    (classifierInput ['a'] ['b']).length ≤ 2000
    ∧ (∃ r, classifierInput ['a'] ['b'] ++ r = ['a'] ++ '.' :: ' ' :: ['b'])
    ∧ Classifier.classify_paper (fun _ => PipeResult.err) (some ['a']) (some ['b'])
        = Classifier.classify_paper (fun _ => PipeResult.err) (some ['a']) (some ['b'])
    ∧ Paper.classify_paper none (fun _ => Paper.ApiOutcome.exc) ['a'] ['b']
        = Paper.classify_paper none (fun _ => Paper.ApiOutcome.exc) ['a'] ['b'] := by
  obtain ⟨h1, h2, h3, h4⟩ := claim_C3 ['a'] ['b']
  exact ⟨h1, h2, h3 _ _ rfl, h4 none _ _ rfl⟩

/-- C6: with no (or an empty) API key in the environment, Strategy A
returns "Authentication Error", and the result does not depend on the
network at all (no request is made). -/
theorem claim_C6 (key : Option String) (net net' : List Char → Paper.ApiOutcome)
    (t a : List Char) (h : key = none ∨ key = some "") :
    Paper.classify_paper key net t a = "Authentication Error"
    ∧ Paper.classify_paper key net t a = Paper.classify_paper key net' t a := by
  have hb : (key == none || key == some "") = true := by
    rcases h with h | h <;> subst h <;> decide
  constructor
  · unfold Paper.classify_paper
    rw [if_pos hb]
  · unfold Paper.classify_paper
    rw [if_pos hb, if_pos hb]

/-- C6 (witness): with an unset key the label is "Authentication Error"
even when two different networks are plugged in. -/
theorem claim_C6_witness :
    Paper.classify_paper none (fun _ => Paper.ApiOutcome.exc) ['t'] ['a']
        = "Authentication Error"
    ∧ Paper.classify_paper none (fun _ => Paper.ApiOutcome.exc) ['t'] ['a']
        = Paper.classify_paper none
            (fun _ => Paper.ApiOutcome.resp 200 false none none) ['t'] ['a'] :=
  claim_C6 none _ _ ['t'] ['a'] (Or.inl rfl)

/-- C7: on a successful response (status 200, no error field, ranked
lists present), Strategy A returns the top-ranked label for every value
of the top score — no confidence floor. -/
theorem claim_C7 (key : Option String) (net : List Char → Paper.ApiOutcome)
    (t a : List Char) (l : String) (ls : List String) (s : Rat) (ss : List Rat)
    (hk : ¬(key = none ∨ key = some ""))
    (hnet : net (classifierInput t a)
      = Paper.ApiOutcome.resp 200 false (some (l :: ls)) (some (s :: ss))) :
    Paper.classify_paper key net t a = l := by
  have hb : (key == none || key == some "") = false := by
    rcases key with _ | k
    · exact absurd (Or.inl rfl) hk
    · have hks : k ≠ "" := fun hke => hk (Or.inr (by rw [hke]))
      simp [hks]
  unfold Paper.classify_paper
  rw [hb, hnet]
  rfl

/-- C7 (witness): a successful response with top score 0.01 still returns
the top label under Strategy A. -/
theorem claim_C7_witness :
    Paper.classify_paper (some "k")
      (fun _ => Paper.ApiOutcome.resp 200 false
        (some ["Graph-Based Learning"]) (some [(1 : Rat)/100]))
      ['t'] ['a'] = "Graph-Based Learning" :=
  claim_C7 (some "k") _ ['t'] ['a'] "Graph-Based Learning" [] ((1 : Rat)/100) []
    (by simp) rfl

end PaperClassifier

namespace PaperClassifier

/-- C4: if the interrupt flag is first observed true at iteration `i`, the
run yields exactly one row per document for documents `1..i`, in
enumeration order (the rows are the mapped prefix of the enumeration), the
rows are still written (the result is `some` whenever the enumeration is
nonempty), and no extraction happens for later documents (the result only
depends on the documents behind the first `i` names). -/
theorem claim_C4 (flag : Nat → Bool) (listing : List (List Char))
    (docOf docOf' : List Char → PDFDoc) (pipe : List Char → PipeResult) (i : Nat)
    (hlt : ∀ k, k < i → flag k = false) (hi : flag i = true) :
    (pdfFiles listing ≠ [] →
      Classifier.process_pdfs flag listing docOf pipe
        = some (((pdfFiles listing).take i).map (Classifier.step pipe docOf)))
    ∧ ((∀ f ∈ (pdfFiles listing).take i, docOf f = docOf' f) →
      Classifier.process_pdfs flag listing docOf pipe
        = Classifier.process_pdfs flag listing docOf' pipe) := by
  have hloop : ∀ docs : List Char → PDFDoc,
      runLoop flag (Classifier.step pipe docs) 0 (pdfFiles listing)
        = ((pdfFiles listing).take i).map (Classifier.step pipe docs) := by
    intro docs
    have h := runLoop_eq_take flag (Classifier.step pipe docs) i hlt hi
      (pdfFiles listing) 0 (by omega)
    simpa using h
  constructor
  · intro hne
    unfold Classifier.process_pdfs process_pdfs_gen
    dsimp only
    rw [if_neg (show ¬((pdfFiles listing == []) = true) by simp [hne])]
    rw [hloop docOf]
  · intro hagree
    unfold Classifier.process_pdfs process_pdfs_gen
    dsimp only
    by_cases hne : pdfFiles listing = []
    · rw [hne]
      rfl
    · have hbne : ¬((pdfFiles listing == []) = true) := by simp [hne]
      rw [if_neg hbne, if_neg hbne]
      rw [hloop docOf, hloop docOf']
      have hmap : ((pdfFiles listing).take i).map (Classifier.step pipe docOf)
          = ((pdfFiles listing).take i).map (Classifier.step pipe docOf') := by
        refine List.map_congr_left ?_
        intro f hf
        unfold Classifier.step
        rw [hagree f hf]
      rw [hmap]

/-- C4 (witness): with the flag raised from iteration 1 on, a two-file
run emits exactly the first file's row. -/
theorem claim_C4_witness :
    Classifier.process_pdfs (fun k => decide (1 ≤ k))
      [['a', '.', 'p', 'd', 'f'], ['b', '.', 'p', 'd', 'f']]
      (fun _ => ⟨false, []⟩) (fun _ => PipeResult.err)
      = some [⟨['a', '.', 'p', 'd', 'f'], none, none, "Missing Metadata"⟩] := by
  have h := (claim_C4 (fun k => decide (1 ≤ k))
    [['a', '.', 'p', 'd', 'f'], ['b', '.', 'p', 'd', 'f']]
    (fun _ => ⟨false, []⟩) (fun _ => ⟨false, []⟩) (fun _ => PipeResult.err) 1
    (by intro k hk; have hk0 : k = 0 := by omega
        subst hk0; decide)
    (by decide)).1 (by decide)
  rw [h]
  decide

/-- C5: any exception while opening or reading a document is caught inside
extraction and converted to `(none, none)` (also when the document has no
pages and the first-page access raises), and whenever a metadata field is
absent the row's label is exactly "Missing Metadata" and the classifier is
not invoked (the row is identical under any two classifiers). -/
theorem claim_C5 :
    (∀ d : PDFDoc, d.openFails = true → extract_pdf_metadata d = (none, none))
    ∧ (∀ b : Bool, extract_pdf_metadata ⟨b, []⟩ = (none, none))
    ∧ (∀ (classify classify' : List Char → List Char → String)
        (name : List Char) (doc : PDFDoc),
        (extract_pdf_metadata doc).1 = none ∨ (extract_pdf_metadata doc).2 = none →
        (rowFor classify name doc).label = "Missing Metadata"
          ∧ rowFor classify name doc = rowFor classify' name doc) := by
  refine ⟨?_, ?_, ?_⟩
  · intro d hd
    unfold extract_pdf_metadata
    rw [hd]
    rfl
  · intro b
    cases b <;> rfl
  · intro classify classify' name doc h
    have h4 : (extract_pdf_metadata doc).1 = none ∨ (extract_pdf_metadata doc).2 = none
        ∨ (extract_pdf_metadata doc).1 = some []
        ∨ (extract_pdf_metadata doc).2 = some [] := by
      rcases h with h | h
      · exact Or.inl h
      · exact Or.inr (Or.inl h)
    exact ⟨rowFor_missing classify name doc h4,
      rowFor_indep classify classify' name doc h4⟩

/-- C5 (witness): a failing document extracts to `(none, none)`, and its
row carries "Missing Metadata" under any classifier. -/
theorem claim_C5_witness :
    extract_pdf_metadata ⟨true, [some ['x']]⟩ = (none, none)
    ∧ (rowFor (fun _ _ => "A") ['f'] ⟨true, []⟩).label = "Missing Metadata"
    ∧ rowFor (fun _ _ => "A") ['f'] ⟨true, []⟩
        = rowFor (fun _ _ => "B") ['f'] ⟨true, []⟩ := by
  obtain ⟨h1, _, h3⟩ := claim_C5
  have h := h3 (fun _ _ => "A") (fun _ _ => "B") ['f'] ⟨true, []⟩ (Or.inl (by decide))
  exact ⟨h1 ⟨true, [some ['x']]⟩ rfl, h.1, h.2⟩

/-- C8: the run writes no output table exactly when the folder listing
contains no name ending in ".pdf"; the write is reached whenever at least
one PDF was enumerated — in both strategies. -/
theorem claim_C8 (flag : Nat → Bool) (listing : List (List Char))
    (docOf : List Char → PDFDoc) (pipe : List Char → PipeResult)
    (key : Option String) (net : List Char → Paper.ApiOutcome) :
    (Classifier.process_pdfs flag listing docOf pipe = none ↔ pdfFiles listing = [])
    ∧ (Paper.process_pdfs flag listing docOf key net = none ↔ pdfFiles listing = []) :=
  ⟨process_pdfs_gen_none_iff flag listing (Classifier.step pipe docOf),
   process_pdfs_gen_none_iff flag listing (Paper.step key net docOf)⟩

/-- C9: a present-but-empty title or abstract is treated exactly like
absent metadata: the label is "Missing Metadata" and the classifier is not
invoked (the row is identical under any two classifiers). -/
theorem claim_C9 (classify classify' : List Char → List Char → String)
    (name : List Char) (doc : PDFDoc)
    (h : (extract_pdf_metadata doc).1 = some [] ∨ (extract_pdf_metadata doc).2 = some []) :
    (rowFor classify name doc).label = "Missing Metadata"
    ∧ rowFor classify name doc = rowFor classify' name doc := by
  have h4 : (extract_pdf_metadata doc).1 = none ∨ (extract_pdf_metadata doc).2 = none
      ∨ (extract_pdf_metadata doc).1 = some []
      ∨ (extract_pdf_metadata doc).2 = some [] := by
    rcases h with h | h
    · exact Or.inr (Or.inr (Or.inl h))
    · exact Or.inr (Or.inr (Or.inr h))
  exact ⟨rowFor_missing classify name doc h4,
    rowFor_indep classify classify' name doc h4⟩

/-- C9 (witness): a document whose first line is only whitespace extracts
an empty title and is labelled "Missing Metadata" under any classifier. -/
theorem claim_C9_witness :
    (rowFor (fun _ _ => "A") ['f'] ⟨false, [some [' ', '\n', 'x']]⟩).label
      = "Missing Metadata"
    ∧ rowFor (fun _ _ => "A") ['f'] ⟨false, [some [' ', '\n', 'x']]⟩
        = rowFor (fun _ _ => "B") ['f'] ⟨false, [some [' ', '\n', 'x']]⟩ :=
  claim_C9 (fun _ _ => "A") (fun _ _ => "B") ['f'] ⟨false, [some [' ', '\n', 'x']]⟩
    (Or.inl (by decide))

end PaperClassifier

namespace PaperClassifier

/-- C10: assuming the model only ranks supplied candidates, every label in
any written result row belongs to the closed set of the five configured
categories plus the six sentinel strings — in both strategies. -/
theorem claim_C10 :
    (∀ (flag : Nat → Bool) (listing : List (List Char)) (docOf : List Char → PDFDoc)
        (pipe : List Char → PipeResult) (rows : List Row),
      (∀ x ls ss, pipe x = PipeResult.ok ls ss → ∀ l ∈ ls, l ∈ CATEGORIES) →
      Classifier.process_pdfs flag listing docOf pipe = some rows →
      ∀ r ∈ rows, r.label ∈ labelSet)
    ∧ (∀ (flag : Nat → Bool) (listing : List (List Char)) (docOf : List Char → PDFDoc)
        (key : Option String) (net : List Char → Paper.ApiOutcome) (rows : List Row),
      (∀ x st hasErr ls ss, net x = Paper.ApiOutcome.resp st hasErr (some ls) ss →
        ∀ l ∈ ls, l ∈ CATEGORIES) →
      Paper.process_pdfs flag listing docOf key net = some rows →
      ∀ r ∈ rows, r.label ∈ labelSet) := by
  constructor
  · intro flag listing docOf pipe rows hpipe hrun r hr
    unfold Classifier.process_pdfs process_pdfs_gen at hrun
    dsimp only at hrun
    by_cases hne : pdfFiles listing = []
    · rw [if_pos (by simp [hne])] at hrun
      exact absurd hrun (by simp)
    · rw [if_neg (show ¬((pdfFiles listing == []) = true) by simp [hne])] at hrun
      rw [← Option.some.inj hrun] at hr
      obtain ⟨f, _, hrf⟩ := runLoop_mem flag _ (pdfFiles listing) 0 r hr
      rw [hrf]
      exact rowFor_label_mem _
        (fun t a => classifyB_label_mem pipe hpipe (some t) (some a)) f (docOf f)
  · intro flag listing docOf key net rows hnet hrun r hr
    unfold Paper.process_pdfs process_pdfs_gen at hrun
    dsimp only at hrun
    by_cases hne : pdfFiles listing = []
    · rw [if_pos (by simp [hne])] at hrun
      exact absurd hrun (by simp)
    · rw [if_neg (show ¬((pdfFiles listing == []) = true) by simp [hne])] at hrun
      rw [← Option.some.inj hrun] at hr
      obtain ⟨f, _, hrf⟩ := runLoop_mem flag _ (pdfFiles listing) 0 r hr
      rw [hrf]
      exact rowFor_label_mem _
        (fun t a => classifyA_label_mem key net hnet t a) f (docOf f)

/-- C10 (witness): a concrete one-document run under Strategy B only emits
labels of the closed set. -/
theorem claim_C10_witness :
    ∀ r ∈ [Row.mk ['a', '.', 'p', 'd', 'f'] none none "Missing Metadata"],
      r.label ∈ labelSet := by
  intro r hr
  exact claim_C10.1 (fun _ => false) [['a', '.', 'p', 'd', 'f']]
    (fun _ => ⟨false, []⟩)
    (fun _ => PipeResult.ok ["Graph-Based Learning"] [(1 : Rat)/2])
    [⟨['a', '.', 'p', 'd', 'f'], none, none, "Missing Metadata"⟩]
    (by intro x ls ss h l hl
        cases h
        simp only [List.mem_singleton] at hl
        subst hl
        decide)
    (by decide) r hr

end PaperClassifier
